import Mathlib

/-!
Verification development for the giantswarm/oka agent core: the MCP tool
registry (package client) and the per-alert session engine (package session).

The embedding is shallow: Go structs become Lean structures, Go maps become
association lists with unique keys, and the external effects (LLM inference,
MCP transports, JSON marshalling/parsing) are supplied as oracles, so every
definition here is executable. String operations model the Go strings package
restricted to the character sets that actually occur: toLowerGo is ASCII
lowering as in strings.ToLower, trimGo trims the whitespace set of
unicode.IsSpace over Latin-1, containsGo is strings.Contains.
-/

/-! ## String helpers (Go strings package) -/

/-- Models Go unicode.IsSpace on the Latin-1 range: space, tab, newline,
vertical tab, form feed, carriage return, NEL, NBSP. -/
def isSpaceGo (c : Char) : Bool :=
  c.toNat = 32 || c.toNat = 9 || c.toNat = 10 || c.toNat = 11 ||
  c.toNat = 12 || c.toNat = 13 || c.toNat = 133 || c.toNat = 160

/-- Models Go strings.TrimSpace: drop leading and trailing whitespace. -/
def trimGo (s : String) : String :=
  ⟨((s.data.dropWhile isSpaceGo).reverse.dropWhile isSpaceGo).reverse⟩

/-- Models Go strings.ToLower on ASCII content. -/
def toLowerGo (s : String) : String :=
  ⟨s.data.map Char.toLower⟩

/-- Boolean prefix test: does the first list start the second? -/
def isPrefixB : List Char → List Char → Bool
  | [], _ => true
  | _ :: _, [] => false
  | a :: as, b :: bs => a = b && isPrefixB as bs

/-- Substring occurrence over character lists, needle first. -/
def containsSubList (needle : List Char) : List Char → Bool
  | [] => isPrefixB needle []
  | hay@(_ :: t) => isPrefixB needle hay || containsSubList needle t

/-- Models Go strings.Contains: needle occurs as a substring of hay. -/
def containsGo (hay needle : String) : Bool :=
  containsSubList needle.data hay.data

/-! ## Registry data model (pkg/mcp/client) -/

/-- Opaque stand-in for the JSON object values (map of string to any) that the
registry carries but never inspects. -/
abbrev Props := List (String × String)

/-- Opaque stand-in for parsed tool-call arguments (map of string to any). -/
abbrev Args := List (String × String)

/-- mcp.ToolInputSchema: the schema attached to an MCP tool. -/
structure InputSchema where
  type : String
  properties : Option Props
  required : Option (List String)
deriving DecidableEq, Repr

/-- mcp.Tool as returned by the ListTools call of an MCP server. -/
structure McpTool where
  name : String
  description : String
  inputSchema : InputSchema
deriving DecidableEq, Repr

/-- llms.FunctionDefinition parameters built from the input schema. -/
structure ParamSchema where
  type : String
  properties : Option Props
  required : Option (List String)
deriving DecidableEq, Repr

/-- llms.FunctionDefinition. -/
structure FunctionDef where
  name : String
  description : String
  parameters : Option ParamSchema
deriving DecidableEq, Repr

/-- llms.Tool: the LangChainGo view of a tool. -/
structure LlmTool where
  type : String
  function : FunctionDef
deriving DecidableEq, Repr

/-- ToolInfo: metadata stored per qualified tool name. The live mcp client
handle is modelled as a numeric connection identifier. -/
structure ToolInfo where
  client : Nat
  clientName : String
  originalToolName : String
deriving DecidableEq, Repr

/-- Clients: the registry. The Go map toolsClients is an association list
whose insertion discipline keeps keys unique. -/
structure Clients where
  tools : List LlmTool
  toolsClients : List (String × ToolInfo)
  uniqueClients : List Nat
deriving DecidableEq, Repr

/-- Clients.New: empty registry. -/
def Clients.New : Clients := ⟨[], [], []⟩

/-- Clone (value semantics): fresh copies of the tool list and tool map; the
uniqueClients slice is not copied (zero value in the Go code). -/
def Clients.Clone (c : Clients) : Clients :=
  ⟨c.tools, c.toolsClients, []⟩

/-- Association-list lookup modelling a Go map read. -/
def alookup {β : Type} (k : String) : List (String × β) → Option β
  | [] => none
  | (k2, v) :: rest => if k2 = k then some v else alookup k rest

/-- Keys of an association list. -/
def keysOf {β : Type} (l : List (String × β)) : List String :=
  l.map Prod.fst

/-- GetTools: the list of available tools. -/
def Clients.GetTools (c : Clients) : List LlmTool := c.tools

/-- One content item in an MCP call-tool result (text or some other kind). -/
inductive McpContent
  | text (s : String)
  | other
deriving DecidableEq, Repr

/-- Oracle for one transport-level CallTool interaction: either the transport
fails, or the server answers with an isError flag and content parts. -/
inductive CallOutcome
  | transportErr (e : String)
  | res (isError : Bool) (content : List McpContent)
deriving DecidableEq, Repr

/-- The request a CallTool dispatch puts on the wire: connection handle,
original (unqualified) tool name, arguments. -/
structure CallRequest where
  clientId : Nat
  name : String
  args : Args
deriving DecidableEq, Repr

instance {α β : Type} [DecidableEq α] [DecidableEq β] : DecidableEq (Except α β) :=
  fun a b =>
    match a, b with
    | .ok x, .ok y => if h : x = y then .isTrue (by rw [h]) else .isFalse (by simp [h])
    | .error x, .error y => if h : x = y then .isTrue (by rw [h]) else .isFalse (by simp [h])
    | .ok _, .error _ => .isFalse (by simp)
    | .error _, .ok _ => .isFalse (by simp)

/-- Result of Clients.CallTool: the registry value after the call (the Go
method never mutates it), the returned text or error, and the transport
request that was issued, if any. -/
structure CallToolRes where
  clients : Clients
  result : Except String String
  request : Option CallRequest
deriving DecidableEq, Repr

/-- Concatenation of the text content parts of a call result. -/
def extractText : List McpContent → String
  | [] => ""
  | .text s :: rest => s ++ extractText rest
  | .other :: rest => extractText rest

/-- Clients.CallTool: look up the owning connection by qualified name; absent
names fail without any transport interaction; otherwise forward the call
(outcome given by the oracle) and translate the result exactly as the Go
code does. -/
def Clients.CallTool (c : Clients) (name : String) (args : Args)
    (oracle : CallOutcome) : CallToolRes :=
  match alookup name c.toolsClients with
  | none => ⟨c, .error ("no client found for tool " ++ name), none⟩
  | some ti =>
    let req : CallRequest := ⟨ti.client, ti.originalToolName, args⟩
    match oracle with
    | .transportErr e =>
      ⟨c, .error ("failed to call tool " ++ name ++ ": " ++ e), some req⟩
    | .res isError content =>
      if isError then
        let msg := match content with
          | [] => "Unknown error"
          | .text t :: _ => t
          | .other :: _ => "Unknown error"
        ⟨c, .error msg, some req⟩
      else
        ⟨c, .ok (extractText content), some req⟩

/-- convertToolsResultToLLMtools: qualify each MCP tool name with the client
name and carry over description and schema. -/
def convertToolsResultToLLMtools (mcpTools : List McpTool) (clientName : String) :
    List LlmTool :=
  mcpTools.map fun mcpTool =>
    { type := "function"
      function :=
        { name := clientName ++ "_" ++ mcpTool.name
          description := mcpTool.description
          parameters :=
            if mcpTool.inputSchema.type ≠ "" then
              some ⟨mcpTool.inputSchema.type, mcpTool.inputSchema.properties,
                    mcpTool.inputSchema.required⟩
            else none } }

/-- Oracle for the effectful phase of RegisterClient: start, initialize
(optionally with captured stdio stderr), list tools, and the close outcome
consulted when zero tools are returned. -/
inductive McpOutcome
  | startErr (e : String)
  | initErr (stdioStderr : Option String) (e : String)
  | listErr (e : String)
  | toolsOk (tools : List McpTool) (closeErr : Option String)
deriving DecidableEq, Repr

/-- Result of RegisterClient: the updated registry, the returned error (none
on success), the connections closed during the call, and the warnings
logged. -/
structure RegResult where
  clients : Clients
  error : Option String
  closed : List Nat
  warnings : List String
deriving DecidableEq, Repr

/-- Warning logged when a provider lists zero tools. -/
def noToolsWarning (name : String) : String :=
  "No tools found for MCP client " ++ name

/-- Warning logged when a qualified tool name already exists. -/
def dupToolWarning (name tool : String) : String :=
  "Tool already exists, skipping " ++ name ++ " " ++ tool

/-- The registration loop over the converted tools paired with the listed MCP
tools (the Go loop indexes toolsResult.Tools with the same i): skip a tool
whose qualified name already exists, otherwise bind it to the connection. -/
def registerToolsLoop (sc : Nat) (name : String) :
    List (LlmTool × McpTool) → List (String × ToolInfo) → List LlmTool →
    List String → List (String × ToolInfo) × List LlmTool × List String
  | [], m, ts, ws => (m, ts, ws)
  | (lt, mt) :: rest, m, ts, ws =>
    if (alookup lt.function.name m).isSome then
      registerToolsLoop sc name rest m ts
        (ws ++ [dupToolWarning name lt.function.name])
    else
      registerToolsLoop sc name rest
        (m ++ [(lt.function.name, ⟨sc, name, mt.name⟩)]) (ts ++ [lt]) ws

/-- Clients.RegisterClient: start, initialize and list tools on the new
connection (outcomes given by the oracle). Zero listed tools close the
connection and succeed with only a warning; otherwise the connection joins
uniqueClients and each qualified tool is bound first-registration-wins. -/
def Clients.RegisterClient (c : Clients) (sc : Nat) (name : String)
    (outcome : McpOutcome) : RegResult :=
  match outcome with
  | .startErr e =>
    ⟨c, some ("failed to start client for " ++ name ++ ": " ++ e), [], []⟩
  | .initErr stdioStderr e =>
    match stdioStderr with
    | some s =>
      if s ≠ "" then
        ⟨c, some ("failed to initialize client for " ++ name ++ ": Stderr: " ++ s),
         [], []⟩
      else
        ⟨c, some ("failed to initialize client for " ++ name ++ ": " ++ e), [], []⟩
    | none =>
      ⟨c, some ("failed to initialize client for " ++ name ++ ": " ++ e), [], []⟩
  | .listErr e =>
    ⟨c, some ("failed to list tools for " ++ name ++ ": " ++ e), [], []⟩
  | .toolsOk tools closeErr =>
    if tools.isEmpty then
      match closeErr with
      | some e =>
        ⟨c, some ("failed to close client for " ++ name ++ ": " ++ e), [],
         [noToolsWarning name]⟩
      | none => ⟨c, none, [sc], [noToolsWarning name]⟩
    else
      let uniq := c.uniqueClients ++ [sc]
      let llmTools := convertToolsResultToLLMtools tools name
      let r := registerToolsLoop sc name (llmTools.zip tools) c.toolsClients c.tools []
      ⟨⟨r.2.1, r.1, uniq⟩, none, [], r.2.2⟩

/-- The tools listed by a registration outcome (empty unless listing
succeeded). -/
def outcomeTools : McpOutcome → List McpTool
  | .toolsOk tools _ => tools
  | _ => []

/-! ## Heap model for Go map/slice aliasing (Clone independence, C8) -/

/-- A store of slice cells and map cells; a Go map or slice value is a
reference into this store, so aliasing and maps.Clone/slices.Clone are
observable. -/
structure Store where
  toolsArr : List (List LlmTool)
  mapsArr : List (List (String × ToolInfo))
deriving DecidableEq, Repr

/-- A registry value whose tools slice and toolsClients map live in the
store; uniqueClients is a plain struct field. -/
structure ClientsRef where
  toolsIdx : Nat
  mapIdx : Nat
  uniqueClients : List Nat
deriving DecidableEq, Repr

/-- Dereference a registry: assemble the plain Clients value it denotes. -/
def readClients (st : Store) (r : ClientsRef) : Clients :=
  ⟨st.toolsArr.getD r.toolsIdx [], st.mapsArr.getD r.mapIdx [], r.uniqueClients⟩

/-- Write a plain Clients value back through a registry reference. -/
def writeClients (st : Store) (r : ClientsRef) (c : Clients) :
    Store × ClientsRef :=
  (⟨st.toolsArr.set r.toolsIdx c.tools, st.mapsArr.set r.mapIdx c.toolsClients⟩,
   { r with uniqueClients := c.uniqueClients })

/-- Clone in the heap model: allocate fresh cells holding copies of the
tool list and tool map (slices.Clone and maps.Clone in the Go code); the
uniqueClients field is not copied. -/
def cloneRef (st : Store) (r : ClientsRef) : Store × ClientsRef :=
  (⟨st.toolsArr ++ [st.toolsArr.getD r.toolsIdx []],
    st.mapsArr ++ [st.mapsArr.getD r.mapIdx []]⟩,
   ⟨st.toolsArr.length, st.mapsArr.length, []⟩)

/-- RegisterClient in the heap model: read the cells, run the plain
RegisterClient, write the updated registry back. -/
def registerClientRef (st : Store) (r : ClientsRef) (sc : Nat) (name : String)
    (outcome : McpOutcome) : Store × ClientsRef × Option String :=
  let res := Clients.RegisterClient (readClients st r) sc name outcome
  let w := writeClients st r res.clients
  (w.1, w.2, res.error)

/-! ## Session engine data model (pkg/session) -/

/-- llms.ChatMessageType restricted to the roles the session uses. -/
inductive Role
  | system
  | human
  | ai
  | tool
deriving DecidableEq, Repr

/-- llms.ContentPart as produced by the session: a text part, a tool-call
part, or a tool-call-response part. -/
inductive ContentPart
  | text (s : String)
  | toolCall (id name arguments : String)
  | toolResponse (id name content : String)
deriving DecidableEq, Repr

/-- llms.MessageContent. -/
structure Message where
  role : Role
  parts : List ContentPart
deriving DecidableEq, Repr

/-- llms.ToolCall as proposed by the model: id, function name, raw JSON
arguments. -/
structure ToolCall where
  id : String
  name : String
  arguments : String
deriving DecidableEq, Repr

/-- A proposed tool call together with the oracle outcomes of its external
effects: parsedArgs is the result of json.Unmarshal on its arguments (none
models a parse error) and transport is the MCP-level call outcome consulted
when the registry lookup succeeds. -/
structure ScriptedToolCall where
  call : ToolCall
  parsedArgs : Option Args
  transport : CallOutcome
deriving DecidableEq, Repr

/-- The view of one callLLM return value that the Run loop consumes: the
first choice content and reasoning, the first choice tool calls (read by
isInvestigationComplete), and the tool calls merged across all choices
(driving the dispatch loop). -/
structure LLMResp where
  content : String
  reasoning : String
  choiceToolCalls : List ScriptedToolCall
  toolCalls : List ScriptedToolCall
deriving DecidableEq, Repr

/-- Environment oracle for one loop iteration: whether the context is
cancelled at the top of the iteration, and the model call outcome (none
models a GenerateContent error). -/
structure IterEnv where
  cancelled : Bool
  llm : Option LLMResp
deriving DecidableEq, Repr

/-- Terminal states of a session run. -/
inductive SessionOutcome
  | complete
  | budgetExhausted
  | cancelled
  | failed
deriving DecidableEq, Repr

/-- The designated completion phrase (const endSessionPhrase). -/
def endSessionPhrase : String := "investigation complete"

/-- The fixed motivation message (const motivationText). -/
def motivationText : String := "Provide next steps to continue the investigation."

/-- The system instruction injected before the final permitted call. -/
def finalCallInstruction : String :=
  "You must now complete your investigation and provide a final response."

/-- isInvestigationComplete: the phrase occurs case-insensitively in the
content, or this was the last permitted call. -/
def isInvestigationComplete (content : String) (isLastCall : Bool) : Bool :=
  containsGo (toLowerGo content) endSessionPhrase || isLastCall

/-- Result of one loop iteration: stop in a terminal state or continue with
the updated history, call count and dispatch log. The Bool on stop records
whether the pending-tool-calls log note was emitted. -/
inductive StepRes
  | stop (state : SessionOutcome) (msgs : List Message) (calls : Nat)
      (dispatched : List String) (loggedPending : Bool)
  | next (msgs : List Message) (calls : Nat) (dispatched : List String)
deriving DecidableEq, Repr

/-- The terminal state of a step result, if it stopped. -/
def StepRes.outcome : StepRes → Option SessionOutcome
  | .stop st _ _ _ _ => some st
  | .next _ _ _ => none

/-- The history carried by a step result. -/
def StepRes.messages : StepRes → List Message
  | .stop _ m _ _ _ => m
  | .next m _ _ => m

/-- The model-call count carried by a step result. -/
def StepRes.calls : StepRes → Nat
  | .stop _ _ c _ _ => c
  | .next _ c _ => c

/-- The dispatch log carried by a step result. -/
def StepRes.dispatched : StepRes → List String
  | .stop _ _ _ d _ => d
  | .next _ _ d => d

/-- The history message for an assistant tool-call proposal. -/
def toolCallMsg (tc : ToolCall) : Message :=
  ⟨.ai, [.toolCall tc.id tc.name tc.arguments]⟩

/-- The history message for a tool response. -/
def toolRespMsg (tc : ToolCall) (content : String) : Message :=
  ⟨.tool, [.toolResponse tc.id tc.name content]⟩

/-- Result of processing the proposed tool calls in order: fatal aborts on an
argument parse failure, done continues the loop. Both carry the history and
the names dispatched via CallTool. -/
inductive ToolsRes
  | fatal (msgs : List Message) (dispatched : List String)
  | done (msgs : List Message) (dispatched : List String)
deriving DecidableEq, Repr

/-- The tool-call dispatch loop of Session.Run: for each proposed call append
the assistant tool-call message, parse its arguments (failure is fatal to
the session), dispatch via Clients.CallTool, and append the tool response
(a call failure becomes a non-fatal Error: text), whitespace-trimmed. -/
def processToolCalls (clients : Clients) :
    List ScriptedToolCall → List Message → List String → ToolsRes
  | [], msgs, disp => .done msgs disp
  | stc :: rest, msgs, disp =>
    let msgs := msgs ++ [toolCallMsg stc.call]
    match stc.parsedArgs with
    | none => .fatal msgs disp
    | some args =>
      let toolResponse :=
        match (Clients.CallTool clients stc.call.name args stc.transport).result with
        | .ok s => s
        | .error e => "Error: " ++ e
      processToolCalls clients rest
        (msgs ++ [toolRespMsg stc.call (trimGo toolResponse)])
        (disp ++ [stc.call.name])

/-- Wrap the outcome of the tool-call loop back into a step result: an
argument parse failure fails the session, otherwise the loop continues. -/
def finishStep (calls : Nat) : ToolsRes → StepRes
  | .fatal m d => .stop .failed m (calls + 1) d false
  | .done m d => .next m (calls + 1) d

/-- One iteration of the Session.Run loop: cancellation check, final-call
instruction, model call, completion check, history update, motivation
message, tool-call processing — in the order of the Go code. -/
def runStep (clients : Clients) (e : IterEnv) (lastCall : Bool)
    (msgs : List Message) (calls : Nat) (disp : List String) : StepRes :=
  if e.cancelled then .stop .cancelled msgs calls disp false
  else
    let msgs := if lastCall then msgs ++ [⟨.system, [.text finalCallInstruction]⟩]
                else msgs
    match e.llm with
    | none => .stop .failed msgs (calls + 1) disp false
    | some resp =>
      let phrase := containsGo (toLowerGo resp.content) endSessionPhrase
      if isInvestigationComplete resp.content lastCall then
        .stop (if phrase then .complete else .budgetExhausted) msgs (calls + 1)
          disp (!phrase && !resp.choiceToolCalls.isEmpty)
      else
        let trimmed := trimGo resp.content
        let msgs := if trimmed ≠ "" then msgs ++ [⟨.ai, [.text trimmed]⟩] else msgs
        let msgs := if resp.toolCalls.isEmpty
                    then msgs ++ [⟨.human, [.text motivationText]⟩] else msgs
        finishStep calls (processToolCalls clients resp.toolCalls msgs disp)

/-- The result of a whole session run. -/
structure RunResult where
  state : SessionOutcome
  messages : List Message
  llmCalls : Nat
  dispatched : List String
  loggedPending : Bool
deriving DecidableEq, Repr

/-- The Run loop from iteration i with the given number of remaining
iterations (the current one included); remaining = 1 is the final permitted
iteration. Reaching remaining = 0 means the budget was zero to begin with. -/
def runAux (clients : Clients) (env : Nat → IterEnv) :
    Nat → Nat → List Message → Nat → List String → RunResult
  | _, 0, msgs, calls, disp => ⟨.budgetExhausted, msgs, calls, disp, false⟩
  | i, r + 1, msgs, calls, disp =>
    match runStep clients (env i) (r == 0) msgs calls disp with
    | .stop st m c d l => ⟨st, m, c, d, l⟩
    | .next m c d => runAux clients env (i + 1) r m c d

/-- Session.Run: marshal the alert (oracle; none models a marshal error that
fails the session before any model call), seed the history with the alert as
a human message and the rendered system prompt, then run the loop. -/
def sessionRun (clients : Clients) (maxCalls : Nat) (marshal : Option String)
    (sysPrompt : String) (env : Nat → IterEnv) : RunResult :=
  match marshal with
  | none => ⟨.failed, [], 0, [], false⟩
  | some alertJson =>
    runAux clients env 0 maxCalls
      [⟨.human, [.text alertJson]⟩, ⟨.system, [.text sysPrompt]⟩] 0 []

/-! ## callLLM choice handling (C10) -/

/-- llms.ContentChoice as consumed by callLLM. -/
structure ContentChoice where
  content : String
  reasoning : String
  toolCalls : List ToolCall
deriving DecidableEq, Repr

/-- The merge loop of callLLM: append the tool calls of every choice in
choice order. -/
def mergeToolCalls (choices : List ContentChoice) : List ToolCall :=
  choices.foldl (fun acc ch => acc ++ ch.toolCalls) []

/-- The pure tail of callLLM after GenerateContent returned: merge the tool
calls of all choices and return the first choice with them. The unguarded
resp.Choices[0] access is modelled by none on an empty choice list (the Go
code would panic there). -/
def callLLMChoices (choices : List ContentChoice) :
    Option (ContentChoice × List ToolCall) :=
  match choices with
  | [] => none
  | c :: _ => some (c, mergeToolCalls choices)

/-! ## Association-list lemmas -/

lemma alookup_append_left {β : Type} (k : String) (l1 l2 : List (String × β))
    (v : β) (h : alookup k l1 = some v) : alookup k (l1 ++ l2) = some v := by
  induction l1 with
  | nil => simp [alookup] at h
  | cons p rest ih =>
    obtain ⟨k2, w⟩ := p
    by_cases hk : k2 = k
    · simp [alookup, hk] at h ⊢; exact h
    · simp [alookup, hk] at h ⊢; exact ih h

lemma alookup_append_right {β : Type} (k : String) (l1 l2 : List (String × β))
    (h : alookup k l1 = none) : alookup k (l1 ++ l2) = alookup k l2 := by
  induction l1 with
  | nil => simp
  | cons p rest ih =>
    obtain ⟨k2, w⟩ := p
    by_cases hk : k2 = k
    · simp [alookup, hk] at h
    · simp [alookup, hk] at h ⊢; exact ih h

lemma alookup_eq_none_iff {β : Type} (k : String) (l : List (String × β)) :
    alookup k l = none ↔ k ∉ keysOf l := by
  induction l with
  | nil => simp [alookup, keysOf]
  | cons p rest ih =>
    obtain ⟨k2, w⟩ := p
    by_cases hk : k2 = k
    · simp [alookup, hk, keysOf]
    · simp [alookup, hk, keysOf] at ih ⊢
      constructor
      · intro h; exact ⟨fun he => hk he.symm, ih.mp h⟩
      · intro h; exact ih.mpr h.2

lemma alookup_singleton_append_isSome {β : Type} (k k2 : String)
    (l : List (String × β)) (v : β)
    (h : (alookup k (l ++ [(k2, v)])).isSome) :
    (alookup k l).isSome ∨ k = k2 := by
  cases hl : alookup k l with
  | some w => exact Or.inl (by simp [hl])
  | none =>
    rw [alookup_append_right k l [(k2, v)] hl] at h
    by_cases hk : k2 = k
    · exact Or.inr hk.symm
    · simp [alookup, hk] at h

/-! ## registerToolsLoop lemmas -/

lemma registerToolsLoop_preserves (sc : Nat) (name : String)
    (pairs : List (LlmTool × McpTool)) :
    ∀ m ts ws k v, alookup k m = some v →
      alookup k (registerToolsLoop sc name pairs m ts ws).1 = some v := by
  induction pairs with
  | nil => intro m ts ws k v h; simpa [registerToolsLoop] using h
  | cons p rest ih =>
    intro m ts ws k v h
    obtain ⟨lt, mt⟩ := p
    by_cases hx : (alookup lt.function.name m).isSome
    · simpa [registerToolsLoop, hx] using ih m ts _ k v h
    · simp only [registerToolsLoop, hx, if_false]
      exact ih _ _ _ k v (alookup_append_left k m _ v h)

lemma registerToolsLoop_nodup (sc : Nat) (name : String)
    (pairs : List (LlmTool × McpTool)) :
    ∀ m ts ws, (keysOf m).Nodup →
      (keysOf (registerToolsLoop sc name pairs m ts ws).1).Nodup := by
  induction pairs with
  | nil => intro m ts ws h; simpa [registerToolsLoop] using h
  | cons p rest ih =>
    intro m ts ws h
    obtain ⟨lt, mt⟩ := p
    by_cases hx : (alookup lt.function.name m).isSome
    · simpa [registerToolsLoop, hx] using ih m ts _ h
    · simp only [registerToolsLoop, hx, if_false]
      apply ih
      have hnone : alookup lt.function.name m = none := by
        cases hc : alookup lt.function.name m with
        | none => rfl
        | some w => simp [hc] at hx
      have hnotmem := (alookup_eq_none_iff lt.function.name m).mp hnone
      have : keysOf (m ++ [(lt.function.name, (⟨sc, name, mt.name⟩ : ToolInfo))]) =
          keysOf m ++ [lt.function.name] := by simp [keysOf]
      rw [this, List.nodup_append]
      refine ⟨h, List.nodup_singleton _, ?_⟩
      simp only [List.Disjoint, List.mem_singleton]
      intro a ha hae
      exact hnotmem (hae ▸ ha)

lemma registerToolsLoop_new_keys (sc : Nat) (name : String)
    (pairs : List (LlmTool × McpTool)) :
    ∀ m ts ws k, (alookup k (registerToolsLoop sc name pairs m ts ws).1).isSome →
      (alookup k m).isSome ∨ ∃ p ∈ pairs, k = p.1.function.name := by
  induction pairs with
  | nil => intro m ts ws k h; exact Or.inl (by simpa [registerToolsLoop] using h)
  | cons p rest ih =>
    intro m ts ws k h
    obtain ⟨lt, mt⟩ := p
    by_cases hx : (alookup lt.function.name m).isSome
    · simp only [registerToolsLoop, hx, if_true] at h
      rcases ih m ts _ k h with h1 | ⟨q, hq, he⟩
      · exact Or.inl h1
      · exact Or.inr ⟨q, List.mem_cons_of_mem _ hq, he⟩
    · simp only [registerToolsLoop, hx, if_false] at h
      rcases ih _ _ _ k h with h1 | ⟨q, hq, he⟩
      · rcases alookup_singleton_append_isSome k lt.function.name m _ h1 with h2 | h2
        · exact Or.inl h2
        · exact Or.inr ⟨(lt, mt), List.mem_cons_self _ _, h2⟩
      · exact Or.inr ⟨q, List.mem_cons_of_mem _ hq, he⟩

lemma mem_zip_map {α β : Type} (f : α → β) (l : List α) (p : β × α)
    (h : p ∈ List.zip (l.map f) l) : p.1 = f p.2 ∧ p.2 ∈ l := by
  induction l with
  | nil => simp at h
  | cons a t ih =>
    simp only [List.map_cons, List.zip_cons_cons, List.mem_cons] at h
    rcases h with h | h
    · rw [h]; exact ⟨rfl, List.mem_cons_self _ _⟩
    · obtain ⟨h1, h2⟩ := ih h
      exact ⟨h1, List.mem_cons_of_mem _ h2⟩

/-! ## Claim C4: qualified naming and first-registration-wins uniqueness -/

/-- C4: every RegisterClient call preserves the registry invariant: existing
qualified-name bindings are never overwritten (first registration wins),
key uniqueness of the tool map is preserved, and every newly reachable key
is the qualified name providerName_originalName of one of the listed
tools. -/
theorem register_qualified_names_unique (c : Clients) (sc : Nat) (name : String)
    (outcome : McpOutcome) (hnd : (keysOf c.toolsClients).Nodup) :
    (∀ k v, alookup k c.toolsClients = some v →
        alookup k (Clients.RegisterClient c sc name outcome).clients.toolsClients = some v)
    ∧ (keysOf (Clients.RegisterClient c sc name outcome).clients.toolsClients).Nodup
    ∧ (∀ k, (alookup k (Clients.RegisterClient c sc name outcome).clients.toolsClients).isSome →
        (alookup k c.toolsClients).isSome ∨
        ∃ t ∈ outcomeTools outcome, k = name ++ "_" ++ t.name) := by
  cases outcome with
  | startErr e => exact ⟨fun _ _ h => h, hnd, fun k h => Or.inl h⟩
  | initErr st e =>
    have hc : (Clients.RegisterClient c sc name (.initErr st e)).clients = c := by
      cases st with
      | none => rfl
      | some s =>
        by_cases hs : s ≠ ""
        · simp [Clients.RegisterClient, hs]
        · simp [Clients.RegisterClient, hs]
    rw [hc]
    exact ⟨fun _ _ h => h, hnd, fun k h => Or.inl h⟩
  | listErr e => exact ⟨fun _ _ h => h, hnd, fun k h => Or.inl h⟩
  | toolsOk tools closeErr =>
    cases tools with
    | nil =>
      have hc : (Clients.RegisterClient c sc name (.toolsOk [] closeErr)).clients = c := by
        unfold Clients.RegisterClient
        cases closeErr <;> rfl
      rw [hc]
      exact ⟨fun _ _ h => h, hnd, fun k h => Or.inl h⟩
    | cons t ts =>
      have hc : (Clients.RegisterClient c sc name (.toolsOk (t :: ts) closeErr)).clients.toolsClients =
          (registerToolsLoop sc name
            ((convertToolsResultToLLMtools (t :: ts) name).zip (t :: ts))
            c.toolsClients c.tools []).1 := rfl
      rw [hc]
      refine ⟨?_, ?_, ?_⟩
      · intro k v h
        exact registerToolsLoop_preserves sc name _ c.toolsClients c.tools [] k v h
      · exact registerToolsLoop_nodup sc name _ c.toolsClients c.tools [] hnd
      · intro k h
        rcases registerToolsLoop_new_keys sc name _ c.toolsClients c.tools [] k h with
          h1 | ⟨p, hp, he⟩
        · exact Or.inl h1
        · simp only [convertToolsResultToLLMtools] at hp
          obtain ⟨h1, h2⟩ := mem_zip_map _ (t :: ts) p hp
          refine Or.inr ⟨p.2, by simpa [outcomeTools] using h2, ?_⟩
          rw [he, h1]
  
theorem register_qualified_names_unique_witness :
    (keysOf (Clients.RegisterClient Clients.New 0 "p"
      (.toolsOk [⟨"t", "d", ⟨"object", none, none⟩⟩] none)).clients.toolsClients).Nodup :=
  (register_qualified_names_unique Clients.New 0 "p"
    (.toolsOk [⟨"t", "d", ⟨"object", none, none⟩⟩] none) (by decide)).2.1

/-! ## Claim C5: unknown tool name fails without any transport interaction -/

/-- C5: for every tool name absent from the tool map and every argument map,
CallTool returns the error no client found for tool name, issues no
transport request, and leaves the registry unchanged. -/
theorem calltool_unknown_tool_error (c : Clients) (name : String) (args : Args)
    (oracle : CallOutcome) (h : alookup name c.toolsClients = none) :
    Clients.CallTool c name args oracle =
      ⟨c, .error ("no client found for tool " ++ name), none⟩ := by
  unfold Clients.CallTool
  rw [h]

theorem calltool_unknown_tool_error_witness :
    Clients.CallTool Clients.New "unknown_tool" [] (.res false []) =
      ⟨Clients.New, .error "no client found for tool unknown_tool", none⟩ :=
  (calltool_unknown_tool_error Clients.New "unknown_tool" [] (.res false []) rfl).trans
    (by decide)

/-! ## Claim C7: a provider listing zero tools is dropped with a warning -/

/-- C7 counterexample: the claim asserts that a zero-tools provider always
yields success, but when closing the connection fails the Go code returns
the close error, which aborts the registration batch: at a concrete input
the returned error is not none. -/
theorem zero_tools_close_failure_counterexample :
    (Clients.RegisterClient Clients.New 0 "p"
      (.toolsOk [] (some "broken pipe"))).error =
        some "failed to close client for p: broken pipe"
    ∧ (Clients.RegisterClient Clients.New 0 "p"
      (.toolsOk [] (some "broken pipe"))).error ≠ none := by
  decide

/-- C7 (amended): when the tool listing returns zero tools, RegisterClient
closes that connection immediately and changes nothing in the registry (tool
map, tool list, unique connection set). If the close succeeds it emits only
the no-tools warning and returns success, so the registration batch is not
aborted; if the close fails it returns the close error (still after logging
the warning, with the registry unchanged), and that error aborts the
batch. -/
theorem zero_tools_provider_dropped (c : Clients) (sc : Nat) (name e : String) :
    (Clients.RegisterClient c sc name (.toolsOk [] none) =
      ⟨c, none, [sc], [noToolsWarning name]⟩)
    ∧ (Clients.RegisterClient c sc name (.toolsOk [] (some e)) =
      ⟨c, some ("failed to close client for " ++ name ++ ": " ++ e), [],
       [noToolsWarning name]⟩) := ⟨rfl, rfl⟩

/-! ## Claim C8: Clone yields independent map and slice cells -/

lemma getD_set_ne {α : Type} (l : List α) (i j : Nat) (v d : α) (h : i ≠ j) :
    (l.set i v).getD j d = l.getD j d := by
  simp [List.getD_eq_getElem?_getD, List.getElem?_set_ne h]

lemma getD_append_lt {α : Type} (l l2 : List α) (j : Nat) (d : α) (h : j < l.length) :
    (l ++ l2).getD j d = l.getD j d := by
  simp [List.getD_eq_getElem?_getD, List.getElem?_append, h]

/-- C8: cloneRef allocates fresh cells for the tool list and the tool map, so
registering a provider into the clone leaves the contents of the original
cells of the original registry unchanged, and registering into the original
leaves the cells of the clone unchanged. -/
theorem clone_independent_of_original (st : Store) (r : ClientsRef) (sc : Nat)
    (name : String) (outcome : McpOutcome)
    (ht : r.toolsIdx < st.toolsArr.length) (hm : r.mapIdx < st.mapsArr.length) :
    ((cloneRef st r).2.toolsIdx ≠ r.toolsIdx ∧ (cloneRef st r).2.mapIdx ≠ r.mapIdx)
    ∧ ((registerClientRef (cloneRef st r).1 (cloneRef st r).2 sc name
          outcome).1.toolsArr.getD r.toolsIdx [] = st.toolsArr.getD r.toolsIdx []
       ∧ (registerClientRef (cloneRef st r).1 (cloneRef st r).2 sc name
          outcome).1.mapsArr.getD r.mapIdx [] = st.mapsArr.getD r.mapIdx [])
    ∧ ((registerClientRef (cloneRef st r).1 r sc name
          outcome).1.toolsArr.getD (cloneRef st r).2.toolsIdx [] =
            (cloneRef st r).1.toolsArr.getD (cloneRef st r).2.toolsIdx []
       ∧ (registerClientRef (cloneRef st r).1 r sc name
          outcome).1.mapsArr.getD (cloneRef st r).2.mapIdx [] =
            (cloneRef st r).1.mapsArr.getD (cloneRef st r).2.mapIdx []) := by
  refine ⟨⟨?_, ?_⟩, ⟨?_, ?_⟩, ⟨?_, ?_⟩⟩
  · simp only [cloneRef]; omega
  · simp only [cloneRef]; omega
  · simp only [registerClientRef, writeClients, cloneRef]
    rw [getD_set_ne _ _ _ _ _ (by omega), getD_append_lt _ _ _ _ ht]
  · simp only [registerClientRef, writeClients, cloneRef]
    rw [getD_set_ne _ _ _ _ _ (by omega), getD_append_lt _ _ _ _ hm]
  · simp only [registerClientRef, writeClients, cloneRef]
    rw [getD_set_ne _ _ _ _ _ (by omega)]
  · simp only [registerClientRef, writeClients, cloneRef]
    rw [getD_set_ne _ _ _ _ _ (by omega)]

def store0 : Store := ⟨[[]], [[]]⟩

def ref0 : ClientsRef := ⟨0, 0, []⟩

def outcome0 : McpOutcome := .toolsOk [⟨"t", "d", ⟨"object", none, none⟩⟩] none

theorem clone_independent_of_original_witness :
    (registerClientRef (cloneRef store0 ref0).1 (cloneRef store0 ref0).2 0 "p"
        outcome0).1.mapsArr.getD 0 [] = store0.mapsArr.getD 0 [] :=
  (clone_independent_of_original store0 ref0 0 "p" outcome0
    (by decide) (by decide)).2.1.2

/-! ## Claim C10: callLLM requires a nonempty choice list -/

lemma foldl_toolCalls_append (l : List ContentChoice) (init : List ToolCall) :
    l.foldl (fun acc ch => acc ++ ch.toolCalls) init =
      init ++ (l.map ContentChoice.toolCalls).flatten := by
  induction l generalizing init with
  | nil => simp
  | cons c t ih => simp [List.foldl_cons, ih]

/-- C10: the choice handling of callLLM is defined only for a nonempty choice
list (the none result models the unguarded out-of-bounds access to the first
choice), and on a nonempty list it returns the first choice together with
the tool calls of all choices concatenated in choice order. -/
theorem callllm_requires_nonempty_choices :
    callLLMChoices [] = none
    ∧ ∀ (c : ContentChoice) (cs : List ContentChoice),
        callLLMChoices (c :: cs) =
          some (c, ((c :: cs).map ContentChoice.toolCalls).flatten) := by
  refine ⟨rfl, fun c cs => ?_⟩
  simp [callLLMChoices, mergeToolCalls, foldl_toolCalls_append]

/-! ## Claim C1: the model is invoked at most maxCalls times -/

lemma runStep_calls_le (clients : Clients) (e : IterEnv) (lc : Bool)
    (msgs : List Message) (calls : Nat) (disp : List String) :
    (runStep clients e lc msgs calls disp).calls ≤ calls + 1 := by
  have hf : ∀ (tr : ToolsRes), (finishStep calls tr).calls = calls + 1 := by
    intro tr; cases tr <;> rfl
  unfold runStep
  repeat' split
  all_goals try simp only [hf]
  all_goals simp [StepRes.calls]

lemma runAux_llmCalls_le (clients : Clients) (env : Nat → IterEnv) :
    ∀ (r i : Nat) (msgs : List Message) (calls : Nat) (disp : List String),
      (runAux clients env i r msgs calls disp).llmCalls ≤ calls + r := by
  intro r
  induction r with
  | zero => intro i msgs calls disp; simp [runAux]
  | succ n ih =>
    intro i msgs calls disp
    have hb := runStep_calls_le clients (env i) (n == 0) msgs calls disp
    unfold runAux
    cases h : runStep clients (env i) (n == 0) msgs calls disp with
    | stop st m c d l =>
      rw [h] at hb
      simp only [StepRes.calls] at hb
      simp only []
      omega
    | next m c d =>
      rw [h] at hb
      simp only [StepRes.calls] at hb
      have := ih (i + 1) m c d
      simp only []
      omega

/-- C1: for every budget of at least one, a session run invokes the model at
most maxCalls times before reaching a terminal state, on every path through
the loop (completion, budget exhaustion, cancellation, failure). -/
theorem session_llm_calls_bounded (clients : Clients) (maxCalls : Nat)
    (marshal : Option String) (sysPrompt : String) (env : Nat → IterEnv)
    (_h : 1 ≤ maxCalls) :
    (sessionRun clients maxCalls marshal sysPrompt env).llmCalls ≤ maxCalls := by
  cases marshal with
  | none => simp [sessionRun]
  | some a =>
    have := runAux_llmCalls_le clients env maxCalls 0
      [⟨.human, [.text a]⟩, ⟨.system, [.text sysPrompt]⟩] 0 []
    simpa [sessionRun] using this

theorem session_llm_calls_bounded_witness :
    1 ≤ 1 ∧ (sessionRun Clients.New 1 (some "alert") "prompt"
      (fun _ => ⟨false, some ⟨"report", "", [], []⟩⟩)).llmCalls ≤ 1 :=
  ⟨by decide,
   session_llm_calls_bounded Clients.New 1 (some "alert") "prompt"
     (fun _ => ⟨false, some ⟨"report", "", [], []⟩⟩) (by decide)⟩

/-! ## Claim C2: the final iteration discards pending tool calls -/

/-- C2: on the final permitted iteration (one remaining call), when the model
response lacks the completion phrase but proposes tool calls, the session
stops in the budget-exhausted state, the dispatch log does not grow (none of
the pending tool calls reaches CallTool), and the only observable effect of
those calls is the pending-tool-calls log note. -/
theorem final_iteration_discards_tool_calls (clients : Clients)
    (env : Nat → IterEnv) (i : Nat) (msgs : List Message) (calls : Nat)
    (disp : List String) (resp : LLMResp)
    (hc : (env i).cancelled = false)
    (hl : (env i).llm = some resp)
    (hp : containsGo (toLowerGo resp.content) endSessionPhrase = false)
    (ht : resp.choiceToolCalls ≠ []) :
    runAux clients env i 1 msgs calls disp =
      ⟨.budgetExhausted, msgs ++ [⟨.system, [.text finalCallInstruction]⟩],
       calls + 1, disp, true⟩ := by
  have hise : resp.choiceToolCalls.isEmpty = false := by
    cases h2 : resp.choiceToolCalls with
    | nil => exact absurd h2 ht
    | cons a t => rfl
  simp [runAux, runStep, hc, hl, hp, isInvestigationComplete, hise]

theorem final_iteration_discards_tool_calls_witness :
    runAux Clients.New
      (fun _ => ⟨false, some ⟨"more to do", "",
        [⟨⟨"1", "p_t", ""⟩, some [], .res false []⟩],
        [⟨⟨"1", "p_t", ""⟩, some [], .res false []⟩]⟩⟩)
      0 1 [] 0 [] =
      ⟨.budgetExhausted, [⟨.system, [.text finalCallInstruction]⟩], 1, [], true⟩ :=
  final_iteration_discards_tool_calls Clients.New
    (fun _ => ⟨false, some ⟨"more to do", "",
      [⟨⟨"1", "p_t", ""⟩, some [], .res false []⟩],
      [⟨⟨"1", "p_t", ""⟩, some [], .res false []⟩]⟩⟩)
    0 [] 0 [] ⟨"more to do", "",
      [⟨⟨"1", "p_t", ""⟩, some [], .res false []⟩],
      [⟨⟨"1", "p_t", ""⟩, some [], .res false []⟩]⟩
    rfl rfl (by decide) (by decide)

/-! ## Claim C3: completion-phrase detection -/

lemma finishStep_outcome_ne_complete (calls : Nat) (tr : ToolsRes) :
    (finishStep calls tr).outcome ≠ some SessionOutcome.complete := by
  cases tr <;> simp [finishStep, StepRes.outcome]

/-- C3: when an iteration is not cancelled and the model call succeeds, the
step stops in the completed state exactly when the lower-cased response
content contains the completion phrase as a substring; in particular the
content Investigation Complete. closing up. completes the session. -/
theorem completion_phrase_detection (clients : Clients) (e : IterEnv)
    (lastCall : Bool) (msgs : List Message) (calls : Nat) (disp : List String)
    (resp : LLMResp) (hc : e.cancelled = false) (hl : e.llm = some resp) :
    ((runStep clients e lastCall msgs calls disp).outcome = some .complete ↔
      containsGo (toLowerGo resp.content) endSessionPhrase = true)
    ∧ (runStep Clients.New
        ⟨false, some ⟨"Investigation Complete. closing up.", "", [], []⟩⟩
        false [] 0 []).outcome = some .complete := by
  constructor
  · unfold runStep
    by_cases hph : containsGo (toLowerGo resp.content) endSessionPhrase = true
    · simp [hc, hl, isInvestigationComplete, hph, StepRes.outcome]
    · have hph2 : containsGo (toLowerGo resp.content) endSessionPhrase = false := by
        cases h2 : containsGo (toLowerGo resp.content) endSessionPhrase with
        | false => rfl
        | true => exact absurd h2 hph
      cases lastCall with
      | true => simp [hc, hl, isInvestigationComplete, hph2, StepRes.outcome]
      | false =>
        simp only [hc, hl, isInvestigationComplete, hph2, Bool.false_or,
          Bool.false_eq_true, if_false]
        repeat' split
        all_goals exact iff_false_intro (finishStep_outcome_ne_complete _ _)
  · decide

theorem completion_phrase_detection_witness :
    (runStep Clients.New
      ⟨false, some ⟨"Investigation Complete. closing up.", "", [], []⟩⟩
      false [] 0 []).outcome = some .complete :=
  (completion_phrase_detection Clients.New
    ⟨false, some ⟨"Investigation Complete. closing up.", "", [], []⟩⟩
    false [] 0 [] ⟨"Investigation Complete. closing up.", "", [], []⟩
    rfl rfl).2

/-! ## Claim C9: assistant message appending in non-final iterations -/

/-- C9 (amended): in a non-final, non-cancelled iteration whose response
lacks the completion phrase, the whitespace-trimmed assistant message is
appended to the history exactly when the trimmed content is nonempty (an
empty or all-whitespace content appends no assistant message), and when the
response proposed no tool calls the fixed motivation human message is
appended immediately after, before the tool-call loop runs. -/
theorem assistant_message_append_nonempty (clients : Clients) (e : IterEnv)
    (msgs : List Message) (calls : Nat) (disp : List String) (resp : LLMResp)
    (hc : e.cancelled = false) (hl : e.llm = some resp)
    (hp : containsGo (toLowerGo resp.content) endSessionPhrase = false) :
    runStep clients e false msgs calls disp =
      finishStep calls
        (processToolCalls clients resp.toolCalls
          ((if trimGo resp.content = "" then msgs
            else msgs ++ [⟨.ai, [.text (trimGo resp.content)]⟩]) ++
           (if resp.toolCalls.isEmpty then [⟨.human, [.text motivationText]⟩]
            else []))
          disp) := by
  rcases Bool.eq_false_or_eq_true resp.toolCalls.isEmpty with h2 | h2 <;>
    by_cases h1 : trimGo resp.content = "" <;>
    simp [runStep, hc, hl, isInvestigationComplete, hp, h1, h2]

theorem assistant_message_append_nonempty_witness :
    runStep Clients.New ⟨false, some ⟨"Check the nodes", "", [], []⟩⟩
      false [] 0 [] =
      finishStep 0
        (processToolCalls Clients.New []
          ((if trimGo "Check the nodes" = "" then ([] : List Message)
            else [] ++ [⟨.ai, [.text (trimGo "Check the nodes")]⟩]) ++
           (if ([] : List ScriptedToolCall).isEmpty
            then [⟨.human, [.text motivationText]⟩] else []))
          []) :=
  assistant_message_append_nonempty Clients.New
    ⟨false, some ⟨"Check the nodes", "", [], []⟩⟩ [] 0 []
    ⟨"Check the nodes", "", [], []⟩ rfl rfl (by decide)

theorem assistant_message_counterexample :
    runStep Clients.New ⟨false, some ⟨"   ", "", [], []⟩⟩ false [] 0 [] =
      .next [⟨.human, [.text motivationText]⟩] 1 []
    ∧ ([⟨.human, [.text motivationText]⟩] : List Message) ≠
        [⟨.ai, [.text (trimGo "   ")]⟩, ⟨.human, [.text motivationText]⟩] := by
  decide

/-! ## Claim C6: a failed tool invocation is non-fatal -/

/-- C6 (amended): when a tool call parses and CallTool reports an error, the
loop does not fail: it appends the assistant tool-call message and a tool
message whose content is the whitespace-trimmed form of the Error: text
(trailing whitespace of the error text is removed), records the dispatch,
and continues with the remaining tool calls; and whenever every call in the
list parses, the loop finishes without reaching the fatal branch. -/
theorem tool_error_appended_nonfatal (clients : Clients)
    (stc : ScriptedToolCall) (rest : List ScriptedToolCall)
    (msgs : List Message) (disp : List String) (a : Args) (e : String)
    (hp : stc.parsedArgs = some a)
    (he : (Clients.CallTool clients stc.call.name a stc.transport).result =
      .error e) :
    processToolCalls clients (stc :: rest) msgs disp =
      processToolCalls clients rest
        (msgs ++ [toolCallMsg stc.call,
                  toolRespMsg stc.call (trimGo ("Error: " ++ e))])
        (disp ++ [stc.call.name])
    ∧ ∀ (stcs : List ScriptedToolCall) (m : List Message) (d : List String),
        (∀ s ∈ stcs, (ScriptedToolCall.parsedArgs s).isSome) →
        ∃ m2 d2, processToolCalls clients stcs m d = ToolsRes.done m2 d2 := by
  constructor
  · simp only [processToolCalls, hp]
    simp only [he]
    simp [List.append_assoc]
  · intro stcs
    induction stcs with
    | nil => intro m d h; exact ⟨m, d, rfl⟩
    | cons s t ih =>
      intro m d h
      have hs : (ScriptedToolCall.parsedArgs s).isSome :=
        h s (List.mem_cons_self _ _)
      obtain ⟨a2, ha2⟩ := Option.isSome_iff_exists.mp hs
      simp only [processToolCalls, ha2]
      exact ih _ _ (fun s2 hs2 => h s2 (List.mem_cons_of_mem _ hs2))

def errClients : Clients :=
  ⟨[⟨"function", ⟨"p_t", "d", none⟩⟩], [("p_t", ⟨0, "p", "t"⟩)], [0]⟩

def errCall : ScriptedToolCall :=
  ⟨⟨"id1", "p_t", ""⟩, some [], .transportErr "boom "⟩

theorem tool_error_appended_nonfatal_witness :
    processToolCalls errClients [errCall] [] [] =
      processToolCalls errClients []
        ([] ++ [toolCallMsg errCall.call,
                toolRespMsg errCall.call
                  (trimGo ("Error: " ++ "failed to call tool p_t: boom "))])
        ([] ++ [errCall.call.name])
    ∧ ∀ (stcs : List ScriptedToolCall) (m : List Message) (d : List String),
        (∀ s ∈ stcs, (ScriptedToolCall.parsedArgs s).isSome) →
        ∃ m2 d2, processToolCalls errClients stcs m d = ToolsRes.done m2 d2 :=
  tool_error_appended_nonfatal errClients errCall [] [] [] []
    "failed to call tool p_t: boom " rfl (by decide)

theorem tool_error_content_counterexample :
    processToolCalls errClients [errCall] [] [] =
      ToolsRes.done [toolCallMsg errCall.call,
        toolRespMsg errCall.call "Error: failed to call tool p_t: boom"] ["p_t"]
    ∧ ("Error: failed to call tool p_t: boom" : String) ≠
        "Error: " ++ "failed to call tool p_t: boom " := by
  decide
